import Mathlib

/-!
Verification of the skill resource lifecycle manager:
the serializing operation queue (src/core/skills/operation-queue.ts),
the sandboxed file accessor wrapper (src/core/skills/sandbox-file-manager.ts)
and the lifecycle manager (src/core/skills/management-manager.ts).

Strings are embedded as `List Char`; JavaScript string operations
(`includes`, `startsWith`, `replace` of fixed patterns, template literals)
become list operations on `List Char`.
-/

/-- Strings of the embedded program are lists of characters. -/
abbrev Str := List Char

/-- Coerce a Lean string literal to the embedded string type. -/
def str (s : String) : Str := s.data

/-- JavaScript `haystack.includes(needle)`. -/
def strContains (hay needle : Str) : Bool := decide (needle <:+: hay)

/-- Substring containment survives extending the haystack on the right. -/
theorem strContains_appendR (hay ext needle : Str) (h : strContains hay needle = true) :
    strContains (hay ++ ext) needle = true := by
  unfold strContains at h ⊢
  obtain ⟨s, t, hst⟩ := of_decide_eq_true h
  exact decide_eq_true ⟨s, t ++ ext, by rw [← hst]; simp⟩

/-- Substring containment survives extending the haystack on the left. -/
theorem strContains_appendL (hay ext needle : Str) (h : strContains hay needle = true) :
    strContains (ext ++ hay) needle = true := by
  unfold strContains at h ⊢
  obtain ⟨s, t, hst⟩ := of_decide_eq_true h
  exact decide_eq_true ⟨ext ++ s, t, by rw [← hst]; simp⟩

/-!
## The serializing operation queue (src/core/skills/operation-queue.ts)

`OperationQueue.enqueue` pushes the task and, when no drain loop is active
(`!this.processing`), starts `processQueue` without awaiting it.
`processQueue` synchronously sets `this.processing = true`, then repeatedly
shifts the head task, marks it processing and `await`s its `execute()`;
when the queue empties it sets `this.processing = false` and exits.

JavaScript is single threaded with run-to-completion between `await`
points, so `enqueue` (push + flag test + the synchronous prefix of
`processQueue` up to the first `await`) is atomic with respect to other
callers.  We model the system as a small-step transition system whose
atomic steps are at least as fine as the real interleavings (every real
behaviour is a behaviour of the model):

* `loops` records every live `processQueue` invocation, each holding the
  task whose `execute()` it is currently awaiting (if any).  The model
  permits several loops in principle; the invariant proves there is at
  most one.
* `enq` appends the task to the queue; when `processing` is `false` it
  starts a fresh drain loop and (synchronously, in the same step, as in
  the source) raises the `processing` flag.
* `start` lets an idle loop shift the head task and begin executing it.
* `finish` lets a loop's awaited `execute()` resolve (or reject).
* `exitLoop` lets an idle loop observe the empty queue, clear the
  `processing` flag and terminate.
-/

/-- State of the operation-queue system.  Tasks are identified by `Nat`. -/
structure QState where
  pending : List Nat
  processing : Bool
  loops : List (Option Nat)
  startedLog : List Nat
  enqLog : List Nat
deriving DecidableEq

/-- The initial state: empty queue, no drain loop, `processing = false`. -/
def initQ : QState := ⟨[], false, [], [], []⟩

/-- Atomic steps of the queue system; see the module comment. -/
inductive QStep : QState → QState → Prop where
  | enq (s : QState) (t : Nat) :
      QStep s ⟨s.pending ++ [t], true,
        if s.processing then s.loops else s.loops ++ [none],
        s.startedLog, s.enqLog ++ [t]⟩
  | start (s : QState) (i t : Nat) (rest : List Nat) :
      s.loops[i]? = some none → s.pending = t :: rest →
      QStep s ⟨rest, s.processing, s.loops.set i (some t),
        s.startedLog ++ [t], s.enqLog⟩
  | finish (s : QState) (i t : Nat) :
      s.loops[i]? = some (some t) →
      QStep s ⟨s.pending, s.processing, s.loops.set i none,
        s.startedLog, s.enqLog⟩
  | exitLoop (s : QState) (i : Nat) :
      s.loops[i]? = some none → s.pending = [] →
      QStep s ⟨[], false, s.loops.eraseIdx i, s.startedLog, s.enqLog⟩

/-- Reachability from the initial state. -/
inductive QReach : QState → Prop where
  | init : QReach initQ
  | step {s s' : QState} : QReach s → QStep s s' → QReach s'

/-- Number of task bodies currently inside `execute()`. -/
def execCount (s : QState) : Nat := (s.loops.filterMap id).length

/-- The inductive invariant of the queue system: at most one drain loop is
live, the `processing` flag tracks loop liveness exactly, and the tasks
started so far followed by the still-pending tasks are precisely the tasks
enqueued, in order. -/
def QInv (s : QState) : Prop :=
  s.loops.length ≤ 1 ∧ (s.processing = true ↔ s.loops ≠ []) ∧
    s.enqLog = s.startedLog ++ s.pending

theorem qinv_init : QInv initQ := by
  refine ⟨by simp [initQ], ?_, by simp [initQ]⟩
  simp [initQ]

theorem qinv_step {s s' : QState} (hi : QInv s) (hs : QStep s s') : QInv s' := by
  obtain ⟨hlen, hproc, hlog⟩ := hi
  cases hs with
  | enq t =>
      by_cases hp : s.processing = true
      · refine ⟨by simpa [hp] using hlen, ?_, by simp [hlog]⟩
        simpa [hp] using hproc
      · have hb : s.processing = false := by
          cases h : s.processing
          · rfl
          · exact absurd h hp
        have hnil : s.loops = [] := by
          by_contra hne
          exact hp (hproc.mpr hne)
        refine ⟨by simp [hb, hnil], ?_, by simp [hlog]⟩
        simp [hb, hnil]
  | start i t rest hget hpend =>
      have hlt : i < s.loops.length := (List.getElem?_eq_some.mp hget).1
      have hne : s.loops ≠ [] := by
        intro h
        rw [h] at hlt
        simp at hlt
      refine ⟨by simpa using hlen, ?_, ?_⟩
      · constructor
        · intro _
          intro h
          apply hne
          have hl := congrArg List.length h
          rw [List.length_set] at hl
          exact List.length_eq_zero.mp hl
        · intro _
          exact hproc.mpr hne
      · rw [hlog, hpend]
        simp
  | finish i t hget =>
      have hlt : i < s.loops.length := (List.getElem?_eq_some.mp hget).1
      have hne : s.loops ≠ [] := by
        intro h
        rw [h] at hlt
        simp at hlt
      refine ⟨by simpa using hlen, ?_, hlog⟩
      constructor
      · intro _
        intro h
        apply hne
        have hl := congrArg List.length h
        rw [List.length_set] at hl
        exact List.length_eq_zero.mp hl
      · intro _
        exact hproc.mpr hne
  | exitLoop i hget hpend =>
      have hlt : i < s.loops.length := (List.getElem?_eq_some.mp hget).1
      have herase : (s.loops.eraseIdx i).length = s.loops.length - 1 :=
        List.length_eraseIdx_of_lt hlt
      refine ⟨?_, ?_, ?_⟩
      · show (s.loops.eraseIdx i).length ≤ 1
        omega
      · have h0 : (s.loops.eraseIdx i).length = 0 := by omega
        have hnil : s.loops.eraseIdx i = [] := List.length_eq_zero.mp h0
        simp [hnil]
      · rw [hlog, hpend]

theorem qreach_inv {s : QState} (h : QReach s) : QInv s := by
  induction h with
  | init => exact qinv_init
  | step _ hs ih => exact qinv_step ih hs

/-- List helper: `filterMap` never lengthens a list. -/
theorem length_filterMap_le' {α β : Type} (f : α → Option β) (l : List α) :
    (l.filterMap f).length ≤ l.length := by
  induction l with
  | nil => simp
  | cons a l ih =>
      cases h : f a <;> simp [List.filterMap_cons, h] <;> omega

/-- C1: at every reachable state of the queue system, at most one task
body is executing, and the tasks started so far are exactly an initial
segment (in order) of the tasks enqueued — strict FIFO, under arbitrary
interleaving of concurrent `enqueue` calls. -/
theorem operationQueue_serial_fifo (s : QState) (h : QReach s) :
    execCount s ≤ 1 ∧ s.enqLog = s.startedLog ++ s.pending := by
  obtain ⟨hlen, _, hlog⟩ := qreach_inv h
  refine ⟨?_, hlog⟩
  calc execCount s ≤ s.loops.length := length_filterMap_le' id s.loops
    _ ≤ 1 := hlen

/-- Witness for C1 at the concrete state reached by one `enqueue`. -/
theorem operationQueue_serial_fifo_witness :
    execCount ⟨[7], true, [none], [], [7]⟩ ≤ 1 ∧
      ([7] : List Nat) = [] ++ [7] :=
  operationQueue_serial_fifo _ (QReach.step QReach.init (QStep.enq initQ 7))

/-!
## Task settlement in the drain loop (C3)

`processQueue` handles each dequeued task in turn: it sets
`status = PROCESSING` and `startedAt`, awaits `execute()`, and on success
sets `status = COMPLETED` / on a thrown error sets `status = FAILED`,
`completedAt` and `error`, then continues with the next task.  The public
mutating operations (`createSkill` etc.) enqueue a task, wait for it to
settle, and `throw task.error` when it is set.

The per-task settlement is deterministic, so we model the drain pass over
a task list as a function.  Time is an abstract counter: each task's
`startedAt`/`completedAt` are the ticks at which it is picked up and
settled.
-/

/-- Operation status values (src/core/skills/operation-queue.ts). -/
inductive OpStatus where
  | pending
  | processing
  | completed
  | failed
deriving DecidableEq

/-- A task submitted to the queue.  `run` is the outcome of its
`execute()` body: `.ok` if it returns, `.error e` if it throws `e`. -/
structure DrainTask where
  id : Nat
  target : Str
  run : Except Str Unit

/-- The fields the drain loop writes on a task object. -/
structure SettledInfo where
  status : OpStatus
  startedAt : Option Nat
  completedAt : Option Nat
  error : Option Str
deriving DecidableEq

/-- One iteration of the drain loop body on task `t` starting at tick
`now` (operation-queue.ts lines 176-191). -/
def settleTask (now : Nat) (t : DrainTask) : SettledInfo :=
  match t.run with
  | .ok _ => ⟨.completed, some now, some (now + 1), none⟩
  | .error e => ⟨.failed, some now, some (now + 1), some e⟩

/-- The drain loop run to completion over the queued tasks, in order. -/
def processQueueRun : Nat → List DrainTask → List (DrainTask × SettledInfo)
  | _, [] => []
  | now, t :: rest => (t, settleTask now t) :: processQueueRun (now + 1) rest

/-- The lifecycle manager's wait: after the task settles it re-throws the
recorded `task.error` if present (management-manager.ts lines 446-448). -/
def waitThenRethrow (rec : SettledInfo) : Except Str Unit :=
  match rec.error with
  | some e => .error e
  | none => .ok ()

theorem processQueueRun_append (now : Nat) (l1 l2 : List DrainTask) :
    processQueueRun now (l1 ++ l2) =
      processQueueRun now l1 ++ processQueueRun (now + l1.length) l2 := by
  induction l1 generalizing now with
  | nil => simp [processQueueRun]
  | cons t rest ih =>
      have harith : now + 1 + rest.length = now + (rest.length + 1) := by omega
      simp only [List.cons_append, processQueueRun, List.length_cons, List.append_eq]
      rw [ih (now + 1), harith]

theorem processQueueRun_length (now : Nat) (l : List DrainTask) :
    (processQueueRun now l).length = l.length := by
  induction l generalizing now with
  | nil => rfl
  | cons t rest ih => simp [processQueueRun, ih]

theorem processQueueRun_terminal (now : Nat) (l : List DrainTask) :
    ∀ p ∈ processQueueRun now l, p.2.status = .completed ∨ p.2.status = .failed := by
  induction l generalizing now with
  | nil => intro p hp; simp [processQueueRun] at hp
  | cons t rest ih =>
      intro p hp
      simp only [processQueueRun, List.mem_cons] at hp
      rcases hp with h | h
      · subst h
        cases hr : t.run <;> simp [settleTask, hr]
      · exact ih (now + 1) p h

/-- C3: when a task's `execute()` throws `e`, the drain loop records
`status = FAILED`, a `completedAt` tick and `error = e` on that task,
the loop itself still settles every task of the queue (it neither aborts
nor lets the error escape — in particular the tasks behind the failing
one are all driven to a terminal status), and the lifecycle manager's
wait re-throws exactly the recorded error `e` to the original caller. -/
theorem drainLoop_captures_error_and_continues
    (now : Nat) (pre post : List DrainTask) (t : DrainTask) (e : Str)
    (hrun : t.run = .error e) :
    (t, settleTask (now + pre.length) t) ∈ processQueueRun now (pre ++ t :: post) ∧
    (settleTask (now + pre.length) t).status = .failed ∧
    (settleTask (now + pre.length) t).completedAt = some (now + pre.length + 1) ∧
    (settleTask (now + pre.length) t).error = some e ∧
    (processQueueRun now (pre ++ t :: post)).length =
      pre.length + 1 + post.length ∧
    (∀ p ∈ processQueueRun now (pre ++ t :: post),
      p.2.status = .completed ∨ p.2.status = .failed) ∧
    waitThenRethrow (settleTask (now + pre.length) t) = .error e := by
  refine ⟨?_, ?_, ?_, ?_, ?_, processQueueRun_terminal now _, ?_⟩
  · rw [processQueueRun_append]
    apply List.mem_append_right
    simp [processQueueRun]
  · simp [settleTask, hrun]
  · simp [settleTask, hrun]
  · simp [settleTask, hrun]
  · rw [processQueueRun_length]
    simp
    omega
  · simp [settleTask, hrun, waitThenRethrow]

/-- Witness for C3: a concrete three-task queue whose middle task throws. -/
theorem drainLoop_captures_error_and_continues_witness :
    (⟨1, str "b", .error (str "boom")⟩,
        settleTask (0 + [(⟨0, str "a", .ok ()⟩ : DrainTask)].length)
          ⟨1, str "b", .error (str "boom")⟩) ∈
      processQueueRun 0
        ([⟨0, str "a", .ok ()⟩] ++ ⟨1, str "b", .error (str "boom")⟩ ::
          [⟨2, str "c", .ok ()⟩]) ∧
    (settleTask (0 + [(⟨0, str "a", .ok ()⟩ : DrainTask)].length)
        ⟨1, str "b", .error (str "boom")⟩).status = .failed ∧
    (settleTask (0 + [(⟨0, str "a", .ok ()⟩ : DrainTask)].length)
        ⟨1, str "b", .error (str "boom")⟩).completedAt =
      some (0 + [(⟨0, str "a", .ok ()⟩ : DrainTask)].length + 1) ∧
    (settleTask (0 + [(⟨0, str "a", .ok ()⟩ : DrainTask)].length)
        ⟨1, str "b", .error (str "boom")⟩).error = some (str "boom") ∧
    (processQueueRun 0
        ([⟨0, str "a", .ok ()⟩] ++ ⟨1, str "b", .error (str "boom")⟩ ::
          [⟨2, str "c", .ok ()⟩])).length =
      [(⟨0, str "a", .ok ()⟩ : DrainTask)].length + 1 +
        [(⟨2, str "c", .ok ()⟩ : DrainTask)].length ∧
    (∀ p ∈ processQueueRun 0
        ([⟨0, str "a", .ok ()⟩] ++ ⟨1, str "b", .error (str "boom")⟩ ::
          [⟨2, str "c", .ok ()⟩]),
      p.2.status = .completed ∨ p.2.status = .failed) ∧
    waitThenRethrow
        (settleTask (0 + [(⟨0, str "a", .ok ()⟩ : DrainTask)].length)
          ⟨1, str "b", .error (str "boom")⟩) = .error (str "boom") :=
  drainLoop_captures_error_and_continues 0 [⟨0, str "a", .ok ()⟩]
    [⟨2, str "c", .ok ()⟩] ⟨1, str "b", .error (str "boom")⟩ (str "boom") rfl

/-!
## Paths and normalization

POSIX-style paths.  `splitSlash` splits a path on `/`; `pushSeg` is one
step of Node's `path.normalize` segment resolution (`.` and empty
segments vanish, `..` pops a previous ordinary segment and is kept when
nothing can be popped); the resolved segments are accumulated on a stack.
-/

/-- The segment `..`. -/
def dotdotSeg : Str := ['.', '.']

/-- The segment `.`. -/
def dotSeg : Str := ['.']

/-- Split a path into segments at `/` separators. -/
def splitSlash : Str → List Str
  | [] => [[]]
  | c :: rest =>
      match splitSlash rest with
      | s :: ss => if c = '/' then [] :: s :: ss else (c :: s) :: ss
      | [] => [[c]]

/-- One step of relative-path segment resolution; the stack holds the
resolved segments in reverse order. -/
def pushSeg (stk : List Str) (seg : Str) : List Str :=
  if seg = [] ∨ seg = dotSeg then stk
  else if seg = dotdotSeg then
    match stk with
    | [] => [dotdotSeg]
    | top :: rest => if top = dotdotSeg then dotdotSeg :: top :: rest else rest
  else seg :: stk

/-- Resolved segment stack (reverse order) of a path. -/
def normStack (p : Str) : List Str := (splitSlash p).foldl pushSeg []

/-- Resolved segments of a path, leftmost first. -/
def normSegs (p : Str) : List Str := (normStack p).reverse

/-- One step of absolute-path segment resolution: `..` above the root is
dropped, as `path.normalize` does for absolute paths. -/
def pushSegAbs (stk : List Str) (seg : Str) : List Str :=
  if seg = [] ∨ seg = dotSeg then stk
  else if seg = dotdotSeg then
    match stk with
    | [] => []
    | top :: rest => if top = dotdotSeg then dotdotSeg :: top :: rest else rest
  else seg :: stk

/-- `path.isAbsolute` (POSIX). -/
def isAbsPath (p : Str) : Bool := p.head? == some '/'

/-- Join segments with `/`. -/
def joinSegs : List Str → Str
  | [] => []
  | [s] => s
  | s :: rest => s ++ '/' :: joinSegs rest

/-- Node's `path.normalize` (POSIX), on the fragment of behaviour this
subsystem relies on: segment resolution for relative and absolute paths,
with the empty result becoming `.`. -/
def normalizePath (p : Str) : Str :=
  if isAbsPath p then
    '/' :: joinSegs ((splitSlash p).foldl pushSegAbs []).reverse
  else
    match joinSegs (normSegs p) with
    | [] => dotSeg
    | r => r

/-- The boundary predicate of spec section 4.2: after normalization the
path begins with a parent-directory traversal segment, or it is
absolute. -/
def violatesBoundary (p : Str) : Bool :=
  isAbsPath p || ((normSegs p).head? == some dotdotSeg)

theorem splitSlash_ne_nil (p : Str) : splitSlash p ≠ [] := by
  cases p with
  | nil => simp [splitSlash]
  | cons c rest =>
      simp only [splitSlash]
      cases h : splitSlash rest with
      | nil => simp
      | cons s ss =>
          by_cases hc : c = '/' <;> simp [hc]

theorem splitSlash_append (a b : Str) :
    splitSlash (a ++ '/' :: b) = splitSlash a ++ splitSlash b := by
  induction a with
  | nil =>
      simp only [List.nil_append, splitSlash]
      cases h : splitSlash b with
      | nil => exact absurd h (splitSlash_ne_nil b)
      | cons s ss => simp
  | cons c a' ih =>
      cases h : splitSlash a' with
      | nil => exact absurd h (splitSlash_ne_nil a')
      | cons s ss =>
          by_cases hc : c = '/' <;>
            simp [splitSlash, ih, h, hc]

/-- A stack whose bottom segment is `..` keeps that bottom under any
further sequence of `pushSeg` steps. -/
theorem foldl_pushSeg_bottom (segs : List Str) :
    ∀ stk : List Str, stk ≠ [] → stk.getLast? = some dotdotSeg →
      (segs.foldl pushSeg stk ≠ [] ∧
        (segs.foldl pushSeg stk).getLast? = some dotdotSeg) := by
  induction segs with
  | nil => intro stk h1 h2; exact ⟨h1, h2⟩
  | cons seg rest ih =>
      intro stk h1 h2
      rw [List.foldl_cons]
      apply ih
      all_goals
        unfold pushSeg
        by_cases he : seg = [] ∨ seg = dotSeg
        · simp only [he, if_true]
          first | exact h1 | exact h2
        · simp only [he, if_false]
          by_cases hd : seg = dotdotSeg
          · simp only [hd, if_true]
            cases stk with
            | nil => exact absurd rfl h1
            | cons top rest' =>
                by_cases ht : top = dotdotSeg
                · simp only [ht, if_true]
                  first
                  | exact List.cons_ne_nil _ _
                  | rw [List.getLast?_cons_cons]
                    simpa [ht] using h2
                · simp only [ht, if_false]
                  cases rest' with
                  | nil =>
                      exfalso
                      apply ht
                      have : some top = some dotdotSeg := by
                        simpa [List.getLast?] using h2
                      exact Option.some.inj this
                  | cons r0 rest'' =>
                      first
                      | exact List.cons_ne_nil _ _
                      | rw [← List.getLast?_cons_cons (a := top) (b := r0)]
                        exact h2
          · simp only [hd, if_false]
            first
            | exact List.cons_ne_nil _ _
            | cases stk with
              | nil => exact absurd rfl h1
              | cons t0 ts =>
                  rw [List.getLast?_cons_cons]
                  exact h2

/-- Appending further path components to a boundary-violating relative
path keeps it boundary-violating. -/
theorem violatesBoundary_append (rel x : Str)
    (h : violatesBoundary rel = true) :
    violatesBoundary (rel ++ '/' :: x) = true := by
  unfold violatesBoundary at h ⊢
  rcases Bool.or_eq_true_iff.mp h with habs | hdd
  · apply Bool.or_eq_true_iff.mpr
    left
    unfold isAbsPath at habs ⊢
    cases rel with
    | nil => simp at habs
    | cons c r => simpa using habs
  · apply Bool.or_eq_true_iff.mpr
    right
    have heq : (normSegs rel).head? = some dotdotSeg := by simpa using hdd
    have hlast : (normStack rel).getLast? = some dotdotSeg := by
      rw [← List.head?_reverse]
      exact heq
    have hne : normStack rel ≠ [] := by
      intro hnil
      rw [hnil] at hlast
      simp at hlast
    have hkey := foldl_pushSeg_bottom (splitSlash x) (normStack rel) hne hlast
    have hfin : (normSegs (rel ++ '/' :: x)).head? = some dotdotSeg := by
      unfold normSegs normStack
      rw [splitSlash_append, List.foldl_append, List.head?_reverse]
      exact hkey.2
    simpa using hfin

/-!
## Boundary-enforced file accessor (C2)

`SandboxFileManager` (src/core/skills/sandbox-file-manager.ts) builds,
per call, a sandbox with `workDir = baseDir`, `enforceBoundary = true`
and an empty `allowPaths` list, and performs the operation through the
sandbox's `fs`/`exec` interface.
-/

/-- Filesystem side effects a call would perform. -/
inductive FsOp where
  | readF (p : Str)
  | writeF (p : Str) (content : Str)
  | mkdirp (p : Str)
  | mkdir (p : Str)
  | globF (pat : Str)
  | execCmd (cmd : Str)
  | renameDir (src dst : Str)
  | patchNameLine (p : Str) (newName : Str)
deriving DecidableEq

/-- Modelled from the spec: the sandbox execution context itself
(`src/infra/sandbox`) is not among the provided sources, only its
construction and use.  Spec sections 4.2 and 6: with boundary enforcement
on, every operation normalizes the given relative path and rejects it
before any filesystem call when, after normalization, it begins with a
parent-directory traversal segment or is an absolute path; the error
message identifies the path as "outside" the permitted root. -/
def sandboxCheck (baseDir rel : Str) : Option Str :=
  if violatesBoundary rel then
    some (str "Path '" ++ rel ++ str "' is outside the allowed directory: " ++ baseDir)
  else
    none

/-- A sandboxed call: the boundary error if rejected, plus the filesystem
operations actually performed (none when rejected). -/
abbrev SandboxResult := Option Str × List FsOp

/-- `SandboxFileManager.readFile`: `sandbox.fs.read(relativePath)`. -/
def sfmReadFile (skillBaseDir relativePath : Str) : SandboxResult :=
  match sandboxCheck skillBaseDir relativePath with
  | some e => (some e, [])
  | none => (none, [FsOp.readF (skillBaseDir ++ '/' :: relativePath)])

/-- `SandboxFileManager.writeFile`: `sandbox.fs.write(relativePath,
content)`; the sandbox write creates intermediate directories. -/
def sfmWriteFile (skillBaseDir relativePath content : Str) : SandboxResult :=
  match sandboxCheck skillBaseDir relativePath with
  | some e => (some e, [])
  | none =>
      (none, [FsOp.mkdirp skillBaseDir,
        FsOp.writeF (skillBaseDir ++ '/' :: relativePath) content])

/-- `SandboxFileManager.deleteFile`: no delete primitive exists on the
sandbox `fs`, so the POSIX delete command is run through `sandbox.exec`
(the Windows branch uses `del /F /Q` instead). -/
def sfmDeleteFile (skillBaseDir relativePath : Str) : SandboxResult :=
  match sandboxCheck skillBaseDir relativePath with
  | some e => (some e, [])
  | none =>
      (none, [FsOp.execCmd (str "rm -f \"" ++ relativePath ++ str "\"")])

/-- The glob pattern `listFiles` builds: `path.join(relativePath, '**/*')`
with backslashes normalized to forward slashes. -/
def listFilesPattern (relativePath : Str) : Str :=
  relativePath ++ '/' :: str "**/*"

/-- `SandboxFileManager.listFiles`: `sandbox.fs.glob(pattern)` over the
joined pattern. -/
def sfmListFiles (skillBaseDir relativePath : Str) : SandboxResult :=
  match sandboxCheck skillBaseDir (listFilesPattern relativePath) with
  | some e => (some e, [])
  | none => (none, [FsOp.globF (listFilesPattern relativePath)])

/-- `SandboxFileManager.createDir`: writes `relativePath/.gitkeep`
through `sandbox.fs.write` (which creates the directory). -/
def sfmCreateDir (skillBaseDir relativePath : Str) : SandboxResult :=
  match sandboxCheck skillBaseDir (relativePath ++ '/' :: str ".gitkeep") with
  | some e => (some e, [])
  | none =>
      (none, [FsOp.mkdirp skillBaseDir,
        FsOp.writeF (skillBaseDir ++ '/' :: relativePath ++ '/' :: str ".gitkeep") []])

theorem sandboxCheck_violates (baseDir rel : Str)
    (h : violatesBoundary rel = true) :
    sandboxCheck baseDir rel =
      some (str "Path '" ++ rel ++ str "' is outside the allowed directory: " ++ baseDir) := by
  simp [sandboxCheck, h]

theorem sandboxCheck_msg_outside (baseDir rel : Str) :
    strContains
      (str "Path '" ++ rel ++ str "' is outside the allowed directory: " ++ baseDir)
      (str "outside") = true := by
  apply strContains_appendR
  apply strContains_appendL
  decide

/-- C2: with a relative path that after normalization begins with a
parent-directory traversal segment or is absolute, every operation of the
boundary-enforced file accessor (`readFile`, `writeFile`, `deleteFile`,
`listFiles`, `createDir`) fails with a boundary-violation error whose
message contains "outside", and performs no filesystem operation at
all. -/
theorem sandboxFileManager_boundary (base rel content : Str)
    (h : violatesBoundary rel = true) :
    (∃ e, sfmReadFile base rel = (some e, []) ∧
        strContains e (str "outside") = true) ∧
    (∃ e, sfmWriteFile base rel content = (some e, []) ∧
        strContains e (str "outside") = true) ∧
    (∃ e, sfmDeleteFile base rel = (some e, []) ∧
        strContains e (str "outside") = true) ∧
    (∃ e, sfmListFiles base rel = (some e, []) ∧
        strContains e (str "outside") = true) ∧
    (∃ e, sfmCreateDir base rel = (some e, []) ∧
        strContains e (str "outside") = true) := by
  have hlist : violatesBoundary (listFilesPattern rel) = true :=
    violatesBoundary_append rel (str "**/*") h
  have hgit : violatesBoundary (rel ++ '/' :: str ".gitkeep") = true :=
    violatesBoundary_append rel (str ".gitkeep") h
  refine ⟨⟨_, ?_, sandboxCheck_msg_outside base rel⟩,
    ⟨_, ?_, sandboxCheck_msg_outside base rel⟩,
    ⟨_, ?_, sandboxCheck_msg_outside base rel⟩,
    ⟨_, ?_, sandboxCheck_msg_outside base (listFilesPattern rel)⟩,
    ⟨_, ?_, sandboxCheck_msg_outside base (rel ++ '/' :: str ".gitkeep")⟩⟩
  · rw [sfmReadFile, sandboxCheck_violates base rel h]
  · rw [sfmWriteFile, sandboxCheck_violates base rel h]
  · rw [sfmDeleteFile, sandboxCheck_violates base rel h]
  · rw [sfmListFiles, sandboxCheck_violates base (listFilesPattern rel) hlist]
  · rw [sfmCreateDir, sandboxCheck_violates base (rel ++ '/' :: str ".gitkeep") hgit]

/-- Witness for C2 at the two inputs named by the spec:
`readFile(base, "../secret")` and `readFile(base, "/etc/passwd")`. -/
theorem sandboxFileManager_boundary_witness :
    ((∃ e, sfmReadFile (str "/skills/demo") (str "../secret") = (some e, []) ∧
        strContains e (str "outside") = true) ∧
    (∃ e, sfmWriteFile (str "/skills/demo") (str "../secret") (str "x") = (some e, []) ∧
        strContains e (str "outside") = true) ∧
    (∃ e, sfmDeleteFile (str "/skills/demo") (str "../secret") = (some e, []) ∧
        strContains e (str "outside") = true) ∧
    (∃ e, sfmListFiles (str "/skills/demo") (str "../secret") = (some e, []) ∧
        strContains e (str "outside") = true) ∧
    (∃ e, sfmCreateDir (str "/skills/demo") (str "../secret") = (some e, []) ∧
        strContains e (str "outside") = true)) ∧
    ((∃ e, sfmReadFile (str "/skills/demo") (str "/etc/passwd") = (some e, []) ∧
        strContains e (str "outside") = true) ∧
    (∃ e, sfmWriteFile (str "/skills/demo") (str "/etc/passwd") (str "x") = (some e, []) ∧
        strContains e (str "outside") = true) ∧
    (∃ e, sfmDeleteFile (str "/skills/demo") (str "/etc/passwd") = (some e, []) ∧
        strContains e (str "outside") = true) ∧
    (∃ e, sfmListFiles (str "/skills/demo") (str "/etc/passwd") = (some e, []) ∧
        strContains e (str "outside") = true) ∧
    (∃ e, sfmCreateDir (str "/skills/demo") (str "/etc/passwd") = (some e, []) ∧
        strContains e (str "outside") = true)) :=
  ⟨sandboxFileManager_boundary (str "/skills/demo") (str "../secret") (str "x")
      (by decide),
    sandboxFileManager_boundary (str "/skills/demo") (str "/etc/passwd") (str "x")
      (by decide)⟩

/-!
## The lifecycle manager (src/core/skills/management-manager.ts)

The `SkillsManager` metadata collaborator (`load`/`scan`, spec section 6)
and the filesystem are not part of this subsystem; a call's view of them
is abstracted as an environment:

* `load` is `skillsManager.loadSkillContent(name)` — per spec section 6 a
  recursive scan of the resources root resolving a manifest `name:` to
  its metadata, `null` when absent; with the default layout the archive
  root lives inside the resources root, so the scan can resolve names of
  archived resources too (the source comments on this explicitly in
  `doCreateSkill`).
* `allSkills` is `skillsManager.getSkillsMetadata()`.
* `archivedSkills` is the result of `this.listArchivedSkills()` as used
  by `doCreateSkill`.
* `pathExists`/`stat` are `fs.access`/`fs.stat` on the current tree.
-/

/-- Metadata of one scanned resource. -/
structure SkillMeta where
  name : Str
  description : Str
  path : Str
  baseDir : Str
deriving DecidableEq

/-- One entry of `listArchivedSkills()`. -/
structure ArchivedSkillInfo where
  originalName : Str
  archivedName : Str
  archivedPath : Str
  archivedAt : Str
deriving DecidableEq

/-- Result of `fs.stat`. -/
structure StatInfo where
  birthtime : Str
  mtime : Str
deriving DecidableEq

/-- The lifecycle manager's configuration plus its view of the
collaborators and the disk at the time of one call. -/
structure ManagerEnv where
  skillsDir : Str
  archivedDir : Str
  load : Str → Option SkillMeta
  allSkills : List SkillMeta
  archivedSkills : List ArchivedSkillInfo
  pathExists : Str → Bool
  stat : Str → Option StatInfo

/-- The archived-path test used throughout management-manager.ts:
`baseDir.includes('/.archived/') || baseDir.includes('\\.archived\\')`. -/
def isArchivedPath (p : Str) : Bool :=
  strContains p (str "/.archived/") || strContains p (str "\\.archived\\")

/-- `isValidSkillName` (management-manager.ts lines 795-798):
`/^[a-zA-Z0-9_-]+$/.test(name) && name.length > 0 && name.length <= 50`. -/
def isValidSkillName (n : Str) : Bool :=
  n.all (fun c => c.isAlphanum || c = '_' || c = '-') &&
    decide (0 < n.length) && decide (n.length ≤ 50)

/-- The generated `SKILL.md` content (`generateSkillMd`). -/
def generateSkillMd (name description : Str) : Str :=
  str "---\nname: " ++ name ++ str "\ndescription: " ++ description ++
    str "\n---\n\n# " ++ name ++ str "\n\nThis is a custom skill created for " ++
    name ++ str ".\n\n## Usage\n\nDescribe how to use this skill here.\n\n## Configuration\n\nAdd any configuration details here.\n"

/-- The conflict message for a name held by an archived entry. -/
def archivedConflictMsg (n : Str) : Str :=
  str "Archived skill with name '" ++ n ++
    str "' already exists. Please restore or permanently delete it first."

/-- `doCreateSkill` (management-manager.ts lines 611-654): name
validation, archived-namespace check first, then online check (with the
secondary base-dir guard), then the directory skeleton and manifest. -/
def doCreateSkill (env : ManagerEnv) (skillName optName optDesc : Str) :
    Except Str (List FsOp) :=
  if ¬ isValidSkillName skillName then
    .error (str "Invalid skill name: " ++ skillName)
  else
    match env.archivedSkills.find? (fun s => s.originalName == skillName) with
    | some _ => .error (archivedConflictMsg skillName)
    | none =>
        match env.load skillName with
        | some existing =>
            if isArchivedPath existing.baseDir then
              .error (archivedConflictMsg skillName)
            else
              .error (str "Skill already exists: " ++ skillName)
        | none =>
            .ok [FsOp.mkdirp (env.skillsDir ++ '/' :: skillName),
              FsOp.mkdir (env.skillsDir ++ '/' :: skillName ++ '/' :: str "references"),
              FsOp.mkdir (env.skillsDir ++ '/' :: skillName ++ '/' :: str "scripts"),
              FsOp.mkdir (env.skillsDir ++ '/' :: skillName ++ '/' :: str "assets"),
              FsOp.writeF (env.skillsDir ++ '/' :: skillName ++ '/' :: str "SKILL.md")
                (generateSkillMd optName optDesc)]

/-- `doRenameSkill` (management-manager.ts lines 659-688): old name must
resolve, new name must validate, `loadSkillContent(newName)` must be
null; then the directory is renamed and the manifest `name:` line
patched. -/
def doRenameSkill (env : ManagerEnv) (oldName newName : Str) :
    Except Str (List FsOp) :=
  match env.load oldName with
  | none => .error (str "Skill not found: " ++ oldName)
  | some _ =>
      if ¬ isValidSkillName newName then
        .error (str "Invalid skill name: " ++ newName)
      else
        match env.load newName with
        | some _ => .error (str "Skill already exists: " ++ newName)
        | none =>
            .ok [FsOp.renameDir (env.skillsDir ++ '/' :: oldName)
                (env.skillsDir ++ '/' :: newName),
              FsOp.patchNameLine
                (env.skillsDir ++ '/' :: newName ++ '/' :: str "SKILL.md") newName]

/-- Timestamp enrichment applied to listed resources: `createdAt` and
`updatedAt` are freshly computed from `fs.stat`. -/
structure SkillInfoOut where
  meta : SkillMeta
  createdAt : Option Str
  updatedAt : Option Str
deriving DecidableEq

/-- Attach fresh stat times to a scanned resource. -/
def enrichStat (env : ManagerEnv) (sk : SkillMeta) : SkillInfoOut :=
  ⟨sk, (env.stat sk.path).map StatInfo.birthtime,
    (env.stat sk.path).map StatInfo.mtime⟩

/-- `listSkills` (management-manager.ts lines 287-309): scans all
resources and keeps those whose `baseDir` contains neither
`/.archived/` nor `\.archived\`, then attaches fresh stat times. -/
def listSkills (env : ManagerEnv) : List SkillInfoOut :=
  (env.allSkills.filter (fun sk => ¬ isArchivedPath sk.baseDir)).map
    (enrichStat env)

/-- `getSkillInfo` (management-manager.ts lines 315-346): `null` when the
name does not resolve, an archived-specific error when the resolved
resource lives under an archived path, otherwise the detail (whose
file-tree part is abstracted away here). -/
def getSkillInfo (env : ManagerEnv) (skillName : Str) :
    Except Str (Option SkillInfoOut) :=
  match env.load skillName with
  | none => .ok none
  | some sk =>
      if isArchivedPath sk.baseDir then
        .error (str "Cannot get info for archived skill: " ++ skillName)
      else
        .ok (some (enrichStat env sk))

/-- `getSkillFileTree` (management-manager.ts lines 579-597): not-found
error when the name does not resolve, archived-specific error for an
archived resource, otherwise the file tree via the sandboxed
`listFiles(baseDir, '.')`. -/
def getSkillFileTree (env : ManagerEnv) (skillName : Str) :
    Except Str (List FsOp) :=
  match env.load skillName with
  | none => .error (str "Skill not found: " ++ skillName)
  | some sk =>
      if isArchivedPath sk.baseDir then
        .error (str "Cannot get file tree for archived skill: " ++ skillName)
      else
        match sfmListFiles sk.baseDir (str ".") with
        | (some e, _) => .error e
        | (none, ops) => .ok ops

/-- `doEditSkillFile` (management-manager.ts lines 693-734): resolve the
resource, reject archived resources, normalize the file path and reject
`..`-prefixed or absolute results, then write through the sandbox (or
directly when `useSandbox` is false). -/
def doEditSkillFile (env : ManagerEnv) (skillName filePath content : Str)
    (useSandbox : Bool) : Except Str (List FsOp) :=
  match env.load skillName with
  | none => .error (str "Skill not found: " ++ skillName)
  | some sk =>
      if isArchivedPath sk.baseDir then
        .error (str "Cannot edit archived skill: " ++ skillName ++
          str ". Please restore it first.")
      else
        let normalized := normalizePath filePath
        if (str "..").isPrefixOf normalized || isAbsPath normalized then
          .error (str "Invalid file path: " ++ filePath)
        else if useSandbox then
          match sfmWriteFile sk.baseDir normalized content with
          | (some e, _) => .error e
          | (none, ops) => .ok ops
        else
          .ok [FsOp.writeF (sk.baseDir ++ '/' :: normalized) content]

/-!
## Archive timestamps (C5)

`doDeleteSkill` encodes `new Date().toISOString()` by replacing every `:`
and `.` with `-` (management-manager.ts line 751) and appends it to the
skill name after `_`.  `listArchivedSkills` (lines 380-398) decodes the
directory-name timestamp back to an ISO instant, accepting both the
millisecond form `YYYY-MM-DDTHH-MM-SS-mmmZ` and the legacy form without
milliseconds.  `doRestoreSkill` (lines 774-778) strips the trailing
`_<timestamp>Z` suffix with an end-anchored regex replace.

An instant is represented by the digit characters of its ISO rendering;
`ms = none` is the legacy second-precision form.
-/

/-- Digit characters of an ISO-8601 UTC instant. -/
structure IsoTs where
  y1 : Char
  y2 : Char
  y3 : Char
  y4 : Char
  o1 : Char
  o2 : Char
  d1 : Char
  d2 : Char
  h1 : Char
  h2 : Char
  n1 : Char
  n2 : Char
  s1 : Char
  s2 : Char
  ms : Option (Char × Char × Char)
deriving DecidableEq

/-- All component characters are decimal digits. -/
def tsWf (t : IsoTs) : Bool :=
  ([t.y1, t.y2, t.y3, t.y4, t.o1, t.o2, t.d1, t.d2, t.h1, t.h2,
    t.n1, t.n2, t.s1, t.s2].all Char.isDigit) &&
  (match t.ms with
    | none => true
    | some (f1, f2, f3) => [f1, f2, f3].all Char.isDigit)

/-- The ISO string `YYYY-MM-DDTHH:MM:SS(.mmm)?Z` of an instant. -/
def isoStringOf (t : IsoTs) : Str :=
  [t.y1, t.y2, t.y3, t.y4, '-', t.o1, t.o2, '-', t.d1, t.d2, 'T',
    t.h1, t.h2, ':', t.n1, t.n2, ':', t.s1, t.s2] ++
  (match t.ms with
    | none => []
    | some (f1, f2, f3) => ['.', f1, f2, f3]) ++ ['Z']

/-- One character of `isoTimestamp.replace(/[:.]/g, '-')`. -/
def tsRepChar (c : Char) : Char := if c = ':' ∨ c = '.' then '-' else c

/-- `isoTimestamp.replace(/[:.]/g, '-')` (management-manager.ts line 751). -/
def tsReplaceColonsDots (s : Str) : Str := s.map tsRepChar

theorem tsRepChar_digit (c : Char) (h : c.isDigit = true) : tsRepChar c = c := by
  unfold tsRepChar
  rw [if_neg]
  rintro (rfl | rfl) <;> exact absurd h (by decide)

/-- The timestamp decoder of `listArchivedSkills` (lines 390-398): the
regex `^(\d{4}-\d{2}-\d{2})T(\d{2})-(\d{2})-(\d{2})(?:-(\d{3}))?Z$`
applied to the encoded timestamp, rebuilding the ISO string
`date T hh:mm:ss(.mmm)? Z` from the captured groups. -/
def decodeArchTs : Str → Option Str
  | [y1, y2, y3, y4, '-', o1, o2, '-', d1, d2, 'T', h1, h2, '-',
      n1, n2, '-', s1, s2, 'Z'] =>
      if [y1, y2, y3, y4, o1, o2, d1, d2, h1, h2, n1, n2, s1, s2].all Char.isDigit then
        some [y1, y2, y3, y4, '-', o1, o2, '-', d1, d2, 'T', h1, h2, ':',
          n1, n2, ':', s1, s2, 'Z']
      else none
  | [y1, y2, y3, y4, '-', o1, o2, '-', d1, d2, 'T', h1, h2, '-',
      n1, n2, '-', s1, s2, '-', f1, f2, f3, 'Z'] =>
      if [y1, y2, y3, y4, o1, o2, d1, d2, h1, h2, n1, n2, s1, s2,
          f1, f2, f3].all Char.isDigit then
        some [y1, y2, y3, y4, '-', o1, o2, '-', d1, d2, 'T', h1, h2, ':',
          n1, n2, ':', s1, s2, '.', f1, f2, f3, 'Z']
      else none
  | _ => none

/-- Character test `r[i]? = some c`. -/
def chAt (r : Str) (i : Nat) (c : Char) : Bool := r[i]? == some c

/-- Digit test at position `i`. -/
def digAt (r : Str) (i : Nat) : Bool :=
  match r[i]? with
  | some c => c.isDigit
  | none => false

/-- The reversed millisecond suffix `_\d{4}-\d{2}-\d{2}T\d{2}-\d{2}-\d{2}-\d{3}Z`
read from the end of the string. -/
def sufPat25 (r : Str) : Bool :=
  chAt r 0 'Z' && digAt r 1 && digAt r 2 && digAt r 3 && chAt r 4 '-' &&
  digAt r 5 && digAt r 6 && chAt r 7 '-' && digAt r 8 && digAt r 9 &&
  chAt r 10 '-' && digAt r 11 && digAt r 12 && chAt r 13 'T' &&
  digAt r 14 && digAt r 15 && chAt r 16 '-' && digAt r 17 && digAt r 18 &&
  chAt r 19 '-' && digAt r 20 && digAt r 21 && digAt r 22 && digAt r 23 &&
  chAt r 24 '_'

/-- The reversed second-precision suffix `_\d{4}-\d{2}-\d{2}T\d{2}-\d{2}-\d{2}Z`
read from the end of the string. -/
def sufPat21 (r : Str) : Bool :=
  chAt r 0 'Z' && digAt r 1 && digAt r 2 && chAt r 3 '-' && digAt r 4 &&
  digAt r 5 && chAt r 6 '-' && digAt r 7 && digAt r 8 && chAt r 9 'T' &&
  digAt r 10 && digAt r 11 && chAt r 12 '-' && digAt r 13 && digAt r 14 &&
  chAt r 15 '-' && digAt r 16 && digAt r 17 && digAt r 18 && digAt r 19 &&
  chAt r 20 '_'

/-- The suffix strip of `doRestoreSkill` (lines 775-778):
`archivedSkillName.replace(/_\d{4}-\d{2}-\d{2}T\d{2}-\d{2}-\d{2}(?:-\d{3})?Z$/, '')`.
The regex is end-anchored and matches only strings of fixed length 21 or
25, so the only candidate match positions are `length - 25` and
`length - 21`, tried in that (leftmost-first, as the JavaScript `replace`
does) order; at most one of the two can match, since a digit is required
where the shorter form would put the leading `_`. -/
def stripTrailingTs (s : Str) : Str :=
  if sufPat25 s.reverse then (s.reverse.drop 25).reverse
  else if sufPat21 s.reverse then (s.reverse.drop 21).reverse
  else s

theorem tsRepChar_colon : tsRepChar ':' = '-' := rfl

theorem tsRepChar_dot : tsRepChar '.' = '-' := rfl

theorem tsRepChar_dash : tsRepChar '-' = '-' := rfl

theorem tsRepChar_big_t : tsRepChar 'T' = 'T' := rfl

theorem stripTrailingTs_spec (name : Str) (t : IsoTs) (hwf : tsWf t = true) :
    stripTrailingTs (name ++ '_' :: tsReplaceColonsDots (isoStringOf t)) = name := by
  obtain ⟨y1, y2, y3, y4, o1, o2, d1, d2, h1, h2, n1, n2, s1, s2, ms⟩ := t
  cases ms with
  | some f =>
      obtain ⟨f1, f2, f3⟩ := f
      simp only [tsWf, List.all_cons, List.all_nil, Bool.and_true,
        Bool.and_eq_true] at hwf
      obtain ⟨⟨hy1, hy2, hy3, hy4, ho1, ho2, hd1, hd2, hh1, hh2, hn1, hn2,
        hs1, hs2⟩, hf1, hf2, hf3⟩ := hwf
      have hrep : tsReplaceColonsDots (isoStringOf
          ⟨y1, y2, y3, y4, o1, o2, d1, d2, h1, h2, n1, n2, s1, s2,
            some (f1, f2, f3)⟩) =
          [y1, y2, y3, y4, '-', o1, o2, '-', d1, d2, 'T', h1, h2, '-',
            n1, n2, '-', s1, s2, '-', f1, f2, f3, 'Z'] := by
        simp only [isoStringOf, List.cons_append, List.nil_append,
          tsReplaceColonsDots, List.map_cons, List.map_nil,
          tsRepChar_digit _ hy1, tsRepChar_digit _ hy2, tsRepChar_digit _ hy3,
          tsRepChar_digit _ hy4, tsRepChar_digit _ ho1, tsRepChar_digit _ ho2,
          tsRepChar_digit _ hd1, tsRepChar_digit _ hd2, tsRepChar_digit _ hh1,
          tsRepChar_digit _ hh2, tsRepChar_digit _ hn1, tsRepChar_digit _ hn2,
          tsRepChar_digit _ hs1, tsRepChar_digit _ hs2, tsRepChar_digit _ hf1,
          tsRepChar_digit _ hf2, tsRepChar_digit _ hf3, tsRepChar_colon,
          tsRepChar_dot, tsRepChar_dash, tsRepChar_big_t]
        rfl
      rw [hrep]
      have hrev : (name ++ '_' :: [y1, y2, y3, y4, '-', o1, o2, '-', d1, d2,
          'T', h1, h2, '-', n1, n2, '-', s1, s2, '-', f1, f2, f3, 'Z']).reverse =
          'Z' :: f3 :: f2 :: f1 :: '-' :: s2 :: s1 :: '-' :: n2 :: n1 :: '-' ::
            h2 :: h1 :: 'T' :: d2 :: d1 :: '-' :: o2 :: o1 :: '-' :: y4 :: y3 ::
            y2 :: y1 :: '_' :: name.reverse := by
        simp
      have h25 : sufPat25 ('Z' :: f3 :: f2 :: f1 :: '-' :: s2 :: s1 :: '-' ::
          n2 :: n1 :: '-' :: h2 :: h1 :: 'T' :: d2 :: d1 :: '-' :: o2 :: o1 ::
          '-' :: y4 :: y3 :: y2 :: y1 :: '_' :: name.reverse) = true := by
        simp [sufPat25, chAt, digAt, hf1, hf2, hf3, hs1, hs2, hn1, hn2,
          hh1, hh2, hd1, hd2, ho1, ho2, hy1, hy2, hy3, hy4]
      simp only [stripTrailingTs, hrev, h25, if_true]
      simp
  | none =>
      simp only [tsWf, List.all_cons, List.all_nil, Bool.and_true,
        Bool.and_eq_true] at hwf
      obtain ⟨hy1, hy2, hy3, hy4, ho1, ho2, hd1, hd2, hh1, hh2, hn1, hn2,
        hs1, hs2⟩ := hwf
      have hrep : tsReplaceColonsDots (isoStringOf
          ⟨y1, y2, y3, y4, o1, o2, d1, d2, h1, h2, n1, n2, s1, s2, none⟩) =
          [y1, y2, y3, y4, '-', o1, o2, '-', d1, d2, 'T', h1, h2, '-',
            n1, n2, '-', s1, s2, 'Z'] := by
        simp only [isoStringOf, List.cons_append, List.nil_append,
          tsReplaceColonsDots, List.map_cons, List.map_nil,
          tsRepChar_digit _ hy1, tsRepChar_digit _ hy2, tsRepChar_digit _ hy3,
          tsRepChar_digit _ hy4, tsRepChar_digit _ ho1, tsRepChar_digit _ ho2,
          tsRepChar_digit _ hd1, tsRepChar_digit _ hd2, tsRepChar_digit _ hh1,
          tsRepChar_digit _ hh2, tsRepChar_digit _ hn1, tsRepChar_digit _ hn2,
          tsRepChar_digit _ hs1, tsRepChar_digit _ hs2, tsRepChar_colon,
          tsRepChar_dash, tsRepChar_big_t]
        rfl
      rw [hrep]
      have hrev : (name ++ '_' :: [y1, y2, y3, y4, '-', o1, o2, '-', d1, d2,
          'T', h1, h2, '-', n1, n2, '-', s1, s2, 'Z']).reverse =
          'Z' :: s2 :: s1 :: '-' :: n2 :: n1 :: '-' :: h2 :: h1 :: 'T' :: d2 ::
            d1 :: '-' :: o2 :: o1 :: '-' :: y4 :: y3 :: y2 :: y1 :: '_' ::
            name.reverse := by
        simp
      have h25 : sufPat25 ('Z' :: s2 :: s1 :: '-' :: n2 :: n1 :: '-' :: h2 ::
          h1 :: 'T' :: d2 :: d1 :: '-' :: o2 :: o1 :: '-' :: y4 :: y3 :: y2 ::
          y1 :: '_' :: name.reverse) = false := by
        simp [sufPat25, chAt, digAt]
      have h21 : sufPat21 ('Z' :: s2 :: s1 :: '-' :: n2 :: n1 :: '-' :: h2 ::
          h1 :: 'T' :: d2 :: d1 :: '-' :: o2 :: o1 :: '-' :: y4 :: y3 :: y2 ::
          y1 :: '_' :: name.reverse) = true := by
        simp [sufPat21, chAt, digAt, hs1, hs2, hn1, hn2, hh1, hh2, hd1, hd2,
          ho1, ho2, hy1, hy2, hy3, hy4]
      simp only [stripTrailingTs, hrev, h25, h21, if_true, Bool.false_eq_true,
        if_false]
      simp

theorem decodeArchTs_spec (t : IsoTs) (hwf : tsWf t = true) :
    decodeArchTs (tsReplaceColonsDots (isoStringOf t)) = some (isoStringOf t) := by
  obtain ⟨y1, y2, y3, y4, o1, o2, d1, d2, h1, h2, n1, n2, s1, s2, ms⟩ := t
  cases ms with
  | some f =>
      obtain ⟨f1, f2, f3⟩ := f
      simp only [tsWf, List.all_cons, List.all_nil, Bool.and_true,
        Bool.and_eq_true] at hwf
      obtain ⟨⟨hy1, hy2, hy3, hy4, ho1, ho2, hd1, hd2, hh1, hh2, hn1, hn2,
        hs1, hs2⟩, hf1, hf2, hf3⟩ := hwf
      have hrep : tsReplaceColonsDots (isoStringOf
          ⟨y1, y2, y3, y4, o1, o2, d1, d2, h1, h2, n1, n2, s1, s2,
            some (f1, f2, f3)⟩) =
          [y1, y2, y3, y4, '-', o1, o2, '-', d1, d2, 'T', h1, h2, '-',
            n1, n2, '-', s1, s2, '-', f1, f2, f3, 'Z'] := by
        simp only [isoStringOf, List.cons_append, List.nil_append,
          tsReplaceColonsDots, List.map_cons, List.map_nil,
          tsRepChar_digit _ hy1, tsRepChar_digit _ hy2, tsRepChar_digit _ hy3,
          tsRepChar_digit _ hy4, tsRepChar_digit _ ho1, tsRepChar_digit _ ho2,
          tsRepChar_digit _ hd1, tsRepChar_digit _ hd2, tsRepChar_digit _ hh1,
          tsRepChar_digit _ hh2, tsRepChar_digit _ hn1, tsRepChar_digit _ hn2,
          tsRepChar_digit _ hs1, tsRepChar_digit _ hs2, tsRepChar_digit _ hf1,
          tsRepChar_digit _ hf2, tsRepChar_digit _ hf3, tsRepChar_colon,
          tsRepChar_dot, tsRepChar_dash, tsRepChar_big_t]
        rfl
      rw [hrep]
      simp [decodeArchTs, isoStringOf, hy1, hy2, hy3, hy4, ho1, ho2, hd1, hd2,
        hh1, hh2, hn1, hn2, hs1, hs2, hf1, hf2, hf3]
  | none =>
      simp only [tsWf, List.all_cons, List.all_nil, Bool.and_true,
        Bool.and_eq_true] at hwf
      obtain ⟨hy1, hy2, hy3, hy4, ho1, ho2, hd1, hd2, hh1, hh2, hn1, hn2,
        hs1, hs2⟩ := hwf
      have hrep : tsReplaceColonsDots (isoStringOf
          ⟨y1, y2, y3, y4, o1, o2, d1, d2, h1, h2, n1, n2, s1, s2, none⟩) =
          [y1, y2, y3, y4, '-', o1, o2, '-', d1, d2, 'T', h1, h2, '-',
            n1, n2, '-', s1, s2, 'Z'] := by
        simp only [isoStringOf, List.cons_append, List.nil_append,
          tsReplaceColonsDots, List.map_cons, List.map_nil,
          tsRepChar_digit _ hy1, tsRepChar_digit _ hy2, tsRepChar_digit _ hy3,
          tsRepChar_digit _ hy4, tsRepChar_digit _ ho1, tsRepChar_digit _ ho2,
          tsRepChar_digit _ hd1, tsRepChar_digit _ hd2, tsRepChar_digit _ hh1,
          tsRepChar_digit _ hh2, tsRepChar_digit _ hn1, tsRepChar_digit _ hn2,
          tsRepChar_digit _ hs1, tsRepChar_digit _ hs2, tsRepChar_colon,
          tsRepChar_dash, tsRepChar_big_t]
        rfl
      rw [hrep]
      simp [decodeArchTs, isoStringOf, hy1, hy2, hy3, hy4, ho1, ho2, hd1, hd2,
        hh1, hh2, hn1, hn2, hs1, hs2]

/-- C5: the directory-suffix encoding of an instant (ISO string with `:`
and `.` replaced by `-`, as `doDeleteSkill` computes it) decodes back to
exactly the original ISO instant under the `listArchivedSkills` decoder,
for both the millisecond form and the second-precision form; and
`doRestoreSkill`'s suffix strip recovers exactly the original name from
`<originalName>_<encodedTimestamp>Z`. -/
theorem archiveTimestamp_roundtrip (t : IsoTs) (name : Str) (hwf : tsWf t = true) :
    decodeArchTs (tsReplaceColonsDots (isoStringOf t)) = some (isoStringOf t) ∧
    stripTrailingTs (name ++ '_' :: tsReplaceColonsDots (isoStringOf t)) = name :=
  ⟨decodeArchTs_spec t hwf, stripTrailingTs_spec name t hwf⟩

/-- Witness for C5: one millisecond-form instant and one legacy
second-precision instant, with a concrete skill name. -/
theorem archiveTimestamp_roundtrip_witness :
    (decodeArchTs (tsReplaceColonsDots (isoStringOf
        ⟨'2', '0', '2', '6', '0', '1', '1', '5', '0', '5', '0', '5', '0', '1',
          some ('3', '5', '0')⟩)) =
      some (isoStringOf
        ⟨'2', '0', '2', '6', '0', '1', '1', '5', '0', '5', '0', '5', '0', '1',
          some ('3', '5', '0')⟩) ∧
    stripTrailingTs (str "demo" ++ '_' :: tsReplaceColonsDots (isoStringOf
        ⟨'2', '0', '2', '6', '0', '1', '1', '5', '0', '5', '0', '5', '0', '1',
          some ('3', '5', '0')⟩)) = str "demo") ∧
    (decodeArchTs (tsReplaceColonsDots (isoStringOf
        ⟨'2', '0', '2', '6', '0', '1', '1', '5', '0', '5', '0', '5', '0', '1',
          none⟩)) =
      some (isoStringOf
        ⟨'2', '0', '2', '6', '0', '1', '1', '5', '0', '5', '0', '5', '0', '1',
          none⟩) ∧
    stripTrailingTs (str "demo" ++ '_' :: tsReplaceColonsDots (isoStringOf
        ⟨'2', '0', '2', '6', '0', '1', '1', '5', '0', '5', '0', '5', '0', '1',
          none⟩)) = str "demo") :=
  ⟨archiveTimestamp_roundtrip _ (str "demo") (by decide),
    archiveTimestamp_roundtrip _ (str "demo") (by decide)⟩

/-!
## Delete (archive) and restore
-/

/-- `doDeleteSkill` (management-manager.ts lines 739-759): resolve the
resource, ensure the archive root exists, compute the archive name from
the current instant's ISO string and move the directory there. -/
def doDeleteSkill (env : ManagerEnv) (skillName nowIso : Str) :
    Except Str (List FsOp) :=
  match env.load skillName with
  | none => .error (str "Skill not found: " ++ skillName)
  | some sk =>
      .ok [FsOp.mkdirp env.archivedDir,
        FsOp.renameDir sk.baseDir
          (env.archivedDir ++ '/' ::
            (skillName ++ '_' :: tsReplaceColonsDots nowIso))]

/-- `doRestoreSkill` (management-manager.ts lines 764-790): the archived
directory must exist; the original name is recovered by stripping the
trailing timestamp suffix; a conflict is raised when the target exists;
otherwise the directory is moved back to the resources root. -/
def doRestoreSkill (env : ManagerEnv) (archivedSkillName : Str) :
    Except Str (List FsOp) :=
  if env.pathExists (env.archivedDir ++ '/' :: archivedSkillName) = false then
    .error (str "Archived skill not found: " ++ archivedSkillName)
  else
    if env.pathExists
        (env.skillsDir ++ '/' :: stripTrailingTs archivedSkillName) = true then
      .error (str "Skill already exists: " ++ stripTrailingTs archivedSkillName)
    else
      .ok [FsOp.renameDir (env.archivedDir ++ '/' :: archivedSkillName)
        (env.skillsDir ++ '/' :: stripTrailingTs archivedSkillName)]

/-- C8: `restoreSkill` fails with a not-found error when the archived
directory is absent; otherwise it recovers the original name by
stripping the trailing timestamp suffix (exactly, for every archived
name of the expected shape), fails with a conflict containing
"already exists" when the recovered name is already taken online, and
otherwise moves the archived directory back to the resources root under
the original name. -/
theorem restoreSkill_spec (env : ManagerEnv) (archivedSkillName : Str) :
    (env.pathExists (env.archivedDir ++ '/' :: archivedSkillName) = false →
      doRestoreSkill env archivedSkillName =
        .error (str "Archived skill not found: " ++ archivedSkillName) ∧
      strContains (str "Archived skill not found: " ++ archivedSkillName)
        (str "not found") = true) ∧
    (env.pathExists (env.archivedDir ++ '/' :: archivedSkillName) = true →
      env.pathExists
        (env.skillsDir ++ '/' :: stripTrailingTs archivedSkillName) = true →
      doRestoreSkill env archivedSkillName =
        .error (str "Skill already exists: " ++ stripTrailingTs archivedSkillName) ∧
      strContains (str "Skill already exists: " ++ stripTrailingTs archivedSkillName)
        (str "already exists") = true) ∧
    (env.pathExists (env.archivedDir ++ '/' :: archivedSkillName) = true →
      env.pathExists
        (env.skillsDir ++ '/' :: stripTrailingTs archivedSkillName) = false →
      doRestoreSkill env archivedSkillName =
        .ok [FsOp.renameDir (env.archivedDir ++ '/' :: archivedSkillName)
          (env.skillsDir ++ '/' :: stripTrailingTs archivedSkillName)]) ∧
    (∀ (originalName : Str) (t : IsoTs), tsWf t = true →
      archivedSkillName =
          originalName ++ '_' :: tsReplaceColonsDots (isoStringOf t) →
      stripTrailingTs archivedSkillName = originalName) := by
  refine ⟨?_, ?_, ?_, ?_⟩
  · intro h
    refine ⟨by simp [doRestoreSkill, h], ?_⟩
    apply strContains_appendR
    decide
  · intro h1 h2
    refine ⟨by simp [doRestoreSkill, h1, h2], ?_⟩
    apply strContains_appendR
    decide
  · intro h1 h2
    simp [doRestoreSkill, h1, h2]
  · intro originalName t hwf heq
    rw [heq]
    exact stripTrailingTs_spec originalName t hwf

/-- Environment with no archived directory present. -/
def restoreEnvAbsent : ManagerEnv :=
  ⟨str "/s", str "/s/.archived", fun _ => none, [], [], fun _ => false,
    fun _ => none⟩

/-- Environment where both the archived directory and the online target
exist. -/
def restoreEnvConflict : ManagerEnv :=
  ⟨str "/s", str "/s/.archived", fun _ => none, [], [], fun _ => true,
    fun _ => none⟩

/-- Environment where exactly the archived directory exists. -/
def restoreEnvOk : ManagerEnv :=
  ⟨str "/s", str "/s/.archived", fun _ => none, [], [],
    fun p => p == str "/s/.archived/demo_2026-01-15T05-05-01-350Z",
    fun _ => none⟩

/-- Witness for C8: the three outcomes of `restoreSkill` on the archived
name `demo_2026-01-15T05-05-01-350Z`, and the exact recovery of `demo`. -/
theorem restoreSkill_spec_witness :
    (doRestoreSkill restoreEnvAbsent (str "demo_2026-01-15T05-05-01-350Z") =
        .error (str "Archived skill not found: " ++
          str "demo_2026-01-15T05-05-01-350Z") ∧
      strContains (str "Archived skill not found: " ++
          str "demo_2026-01-15T05-05-01-350Z") (str "not found") = true) ∧
    (doRestoreSkill restoreEnvConflict (str "demo_2026-01-15T05-05-01-350Z") =
        .error (str "Skill already exists: " ++
          stripTrailingTs (str "demo_2026-01-15T05-05-01-350Z")) ∧
      strContains (str "Skill already exists: " ++
          stripTrailingTs (str "demo_2026-01-15T05-05-01-350Z"))
        (str "already exists") = true) ∧
    (doRestoreSkill restoreEnvOk (str "demo_2026-01-15T05-05-01-350Z") =
      .ok [FsOp.renameDir (restoreEnvOk.archivedDir ++ '/' ::
          str "demo_2026-01-15T05-05-01-350Z")
        (restoreEnvOk.skillsDir ++ '/' ::
          stripTrailingTs (str "demo_2026-01-15T05-05-01-350Z"))]) ∧
    stripTrailingTs (str "demo_2026-01-15T05-05-01-350Z") = str "demo" :=
  ⟨(restoreSkill_spec restoreEnvAbsent
      (str "demo_2026-01-15T05-05-01-350Z")).1 (by decide),
    (restoreSkill_spec restoreEnvConflict
      (str "demo_2026-01-15T05-05-01-350Z")).2.1 (by decide) (by decide),
    (restoreSkill_spec restoreEnvOk
      (str "demo_2026-01-15T05-05-01-350Z")).2.2.1 (by decide) (by decide),
    (restoreSkill_spec restoreEnvOk
      (str "demo_2026-01-15T05-05-01-350Z")).2.2.2 (str "demo")
      ⟨'2', '0', '2', '6', '0', '1', '1', '5', '0', '5', '0', '5', '0', '1',
        some ('3', '5', '0')⟩ (by decide) (by decide)⟩

/-- C4: `createSkill` rejects any name failing the
`^[A-Za-z0-9_-]+$` / length 1-50 validation; for a valid name it checks
the archive namespace first, failing with the conflict message that
distinguishes the archived case ("restore or permanently delete it
first"), and only otherwise fails with the plain "already exists"
conflict when the name resolves to an online resource. -/
theorem createSkill_validation_and_conflicts
    (env : ManagerEnv) (skillName optName optDesc : Str) :
    (isValidSkillName skillName = false →
      doCreateSkill env skillName optName optDesc =
        .error (str "Invalid skill name: " ++ skillName)) ∧
    (isValidSkillName skillName = true →
      ∀ a, env.archivedSkills.find?
          (fun s => s.originalName == skillName) = some a →
      doCreateSkill env skillName optName optDesc =
        .error (archivedConflictMsg skillName) ∧
      strContains (archivedConflictMsg skillName)
        (str "restore or permanently delete it first") = true) ∧
    (isValidSkillName skillName = true →
      env.archivedSkills.find?
        (fun s => s.originalName == skillName) = none →
      ∀ m, env.load skillName = some m → isArchivedPath m.baseDir = false →
      doCreateSkill env skillName optName optDesc =
        .error (str "Skill already exists: " ++ skillName) ∧
      strContains (str "Skill already exists: " ++ skillName)
        (str "already exists") = true ∧
      str "Skill already exists: " ++ skillName ≠
        archivedConflictMsg skillName) := by
  refine ⟨?_, ?_, ?_⟩
  · intro h
    simp [doCreateSkill, h]
  · intro hv a hfind
    refine ⟨by simp [doCreateSkill, hv, hfind], ?_⟩
    unfold archivedConflictMsg
    apply strContains_appendL
    decide
  · intro hv hfind m hload hbase
    refine ⟨by simp [doCreateSkill, hv, hfind, hload, hbase], ?_, ?_⟩
    · apply strContains_appendR
      decide
    · intro h
      have h1 : (str "Skill already exists: " ++ skillName).head? = some 'S' := rfl
      have h2 : (archivedConflictMsg skillName).head? = some 'A' := rfl
      rw [h, h2] at h1
      exact absurd h1 (by decide)

/-- Environment with an archived entry named `demo`. -/
def createEnvArch : ManagerEnv :=
  ⟨str "/s", str "/s/.archived", fun _ => none, [],
    [⟨str "demo", str "demo_2026-01-15T05-05-01-350Z",
      str "/s/.archived/demo_2026-01-15T05-05-01-350Z",
      str "2026-01-15T05:05:01.350Z"⟩],
    fun _ => false, fun _ => none⟩

/-- Environment with an online resource named `demo` and no archived
entry. -/
def createEnvOnline : ManagerEnv :=
  ⟨str "/s", str "/s/.archived",
    fun n => if n == str "demo" then
        some ⟨str "demo", str "d", str "/s/demo/SKILL.md", str "/s/demo"⟩
      else none,
    [], [], fun _ => false, fun _ => none⟩

/-- Witness for C4: an invalid name, an archived-name collision and a
plain online collision. -/
theorem createSkill_validation_and_conflicts_witness :
    doCreateSkill createEnvArch (str "bad name!") (str "bad name!") [] =
      .error (str "Invalid skill name: " ++ str "bad name!") ∧
    (doCreateSkill createEnvArch (str "demo") (str "demo") [] =
        .error (archivedConflictMsg (str "demo")) ∧
      strContains (archivedConflictMsg (str "demo"))
        (str "restore or permanently delete it first") = true) ∧
    (doCreateSkill createEnvOnline (str "demo") (str "demo") [] =
        .error (str "Skill already exists: " ++ str "demo") ∧
      strContains (str "Skill already exists: " ++ str "demo")
        (str "already exists") = true ∧
      str "Skill already exists: " ++ str "demo" ≠
        archivedConflictMsg (str "demo")) :=
  ⟨(createSkill_validation_and_conflicts createEnvArch
      (str "bad name!") (str "bad name!") []).1 (by decide),
    (createSkill_validation_and_conflicts createEnvArch
      (str "demo") (str "demo") []).2.1 (by decide)
      ⟨str "demo", str "demo_2026-01-15T05-05-01-350Z",
        str "/s/.archived/demo_2026-01-15T05-05-01-350Z",
        str "2026-01-15T05:05:01.350Z"⟩ (by decide),
    (createSkill_validation_and_conflicts createEnvOnline
      (str "demo") (str "demo") []).2.2 (by decide) (by decide)
      ⟨str "demo", str "d", str "/s/demo/SKILL.md", str "/s/demo"⟩
      (by decide) (by decide)⟩

/-- Environment that resolves no name at all. -/
def emptyLookupEnv : ManagerEnv :=
  ⟨str "/s", str "/s/.archived", fun _ => none, [], [], fun _ => false,
    fun _ => none⟩

/-- C10: when a name resolves to no resource, `getSkillInfo` returns
`null` while `getSkillFileTree` throws an error containing
"Skill not found" — the two read-only lookups report absence
differently. -/
theorem absent_lookup_reporting (env : ManagerEnv) (skillName : Str)
    (h : env.load skillName = none) :
    getSkillInfo env skillName = .ok none ∧
    getSkillFileTree env skillName =
      .error (str "Skill not found: " ++ skillName) ∧
    strContains (str "Skill not found: " ++ skillName)
      (str "Skill not found") = true := by
  refine ⟨by simp [getSkillInfo, h], by simp [getSkillFileTree, h], ?_⟩
  apply strContains_appendR
  decide

/-- Witness for C10 at a concrete empty environment. -/
theorem absent_lookup_reporting_witness :
    getSkillInfo emptyLookupEnv (str "ghost") = .ok none ∧
    getSkillFileTree emptyLookupEnv (str "ghost") =
      .error (str "Skill not found: " ++ str "ghost") ∧
    strContains (str "Skill not found: " ++ str "ghost")
      (str "Skill not found") = true :=
  absent_lookup_reporting emptyLookupEnv (str "ghost") rfl

/-- A path directly under the default archive root
`<skillsDir>/.archived` contains the `/.archived/` marker. -/
theorem isArchivedPath_under_default (skillsDir rest p : Str)
    (hp : p = (skillsDir ++ str "/.archived") ++ '/' :: rest) :
    isArchivedPath p = true := by
  have hinf : strContains p (str "/.archived/") = true := by
    rw [hp]
    unfold strContains
    apply decide_eq_true
    refine ⟨skillsDir, rest, ?_⟩
    simp only [List.append_assoc]
    rfl
  simp [isArchivedPath, hinf]

/-- C9 as amended: the archived guard of `getSkillInfo`,
`getSkillFileTree` and `editSkillFile` is the fixed-substring test on
`/.archived/` and `\.archived\`, so against a resource whose directory
lies under the default archive root `<skillsDir>/.archived` all three
operations fail with an archived-specific error message and the edit
performs no write; a resource under a differently named configured
archive root is not covered (see the counterexample below). -/
theorem archived_resource_ops_fail (env : ManagerEnv)
    (skillName filePath content : Str) (useSandbox : Bool)
    (sk : SkillMeta) (rest : Str)
    (hload : env.load skillName = some sk)
    (harch : env.archivedDir = env.skillsDir ++ str "/.archived")
    (hbase : sk.baseDir = env.archivedDir ++ '/' :: rest) :
    (∃ m, getSkillInfo env skillName = .error m ∧
      strContains m (str "archived") = true) ∧
    (∃ m, getSkillFileTree env skillName = .error m ∧
      strContains m (str "archived") = true) ∧
    (∃ m, doEditSkillFile env skillName filePath content useSandbox =
        .error m ∧
      strContains m (str "archived") = true) := by
  have hap : isArchivedPath sk.baseDir = true :=
    isArchivedPath_under_default env.skillsDir rest sk.baseDir
      (by rw [hbase, harch])
  refine ⟨⟨str "Cannot get info for archived skill: " ++ skillName, ?_, ?_⟩,
    ⟨str "Cannot get file tree for archived skill: " ++ skillName, ?_, ?_⟩,
    ⟨str "Cannot edit archived skill: " ++ skillName ++
      str ". Please restore it first.", ?_, ?_⟩⟩
  · simp [getSkillInfo, hload, hap]
  · apply strContains_appendR
    decide
  · simp [getSkillFileTree, hload, hap]
  · apply strContains_appendR
    decide
  · simp [doEditSkillFile, hload, hap]
  · apply strContains_appendR
    apply strContains_appendR
    decide

/-- Environment whose single resource `demo` lives under the default
archive root. -/
def archivedOnlyEnv : ManagerEnv :=
  ⟨str "/s", str "/s/.archived",
    fun n => if n == str "demo" then
        some ⟨str "demo", str "d",
          str "/s/.archived/demo_2026-01-15T05-05-01-350Z/SKILL.md",
          str "/s/.archived/demo_2026-01-15T05-05-01-350Z"⟩
      else none,
    [], [], fun _ => false, fun _ => none⟩

/-- Witness for C9 against the archived resource `demo`. -/
theorem archived_resource_ops_fail_witness :
    (∃ m, getSkillInfo archivedOnlyEnv (str "demo") = .error m ∧
      strContains m (str "archived") = true) ∧
    (∃ m, getSkillFileTree archivedOnlyEnv (str "demo") = .error m ∧
      strContains m (str "archived") = true) ∧
    (∃ m, doEditSkillFile archivedOnlyEnv (str "demo") (str "SKILL.md")
        (str "x") true = .error m ∧
      strContains m (str "archived") = true) :=
  archived_resource_ops_fail archivedOnlyEnv (str "demo") (str "SKILL.md")
    (str "x") true
    ⟨str "demo", str "d",
      str "/s/.archived/demo_2026-01-15T05-05-01-350Z/SKILL.md",
      str "/s/.archived/demo_2026-01-15T05-05-01-350Z"⟩
    (str "demo_2026-01-15T05-05-01-350Z") (by decide) (by decide) (by decide)

/-- Environment whose archive root is configured to `/s/trash` and whose
loader resolves `demo` to a resource living under that configured
archive root. -/
def archivedCustomRootEnv : ManagerEnv :=
  ⟨str "/s", str "/s/trash",
    fun n => if n == str "demo" then
        some ⟨str "demo", str "d", str "/s/trash/demo_x/SKILL.md",
          str "/s/trash/demo_x"⟩
      else none,
    [], [], fun _ => false, fun _ => none⟩

/-- Counterexample to C9 as stated: with the archive root configured to
`/s/trash`, a resource whose directory lies under that archive root does
not trigger the archived guards — `getSkillInfo` returns the detail
instead of failing, `getSkillFileTree` returns the tree listing, and
`editSkillFile` proceeds to emit the write (a mutation of the archived
resource) — because the guards test the fixed `.archived` substrings,
not the configured root. -/
theorem archived_ops_custom_root_cex :
    ((archivedCustomRootEnv.archivedDir ++ ['/']).isPrefixOf
      (str "/s/trash/demo_x")) = true ∧
    archivedCustomRootEnv.load (str "demo") =
      some ⟨str "demo", str "d", str "/s/trash/demo_x/SKILL.md",
        str "/s/trash/demo_x"⟩ ∧
    getSkillInfo archivedCustomRootEnv (str "demo") =
      .ok (some ⟨⟨str "demo", str "d", str "/s/trash/demo_x/SKILL.md",
        str "/s/trash/demo_x"⟩, none, none⟩) ∧
    getSkillFileTree archivedCustomRootEnv (str "demo") =
      .ok [FsOp.globF (listFilesPattern (str "."))] ∧
    doEditSkillFile archivedCustomRootEnv (str "demo") (str "SKILL.md")
        (str "x") true =
      .ok [FsOp.mkdirp (str "/s/trash/demo_x"),
        FsOp.writeF (str "/s/trash/demo_x" ++ '/' :: str "SKILL.md")
          (str "x")] := by
  refine ⟨by decide, rfl, rfl, ?_, ?_⟩ <;> rfl

/-!
## C6 and C7: the two namespace checks that do not track configuration

`listSkills` filters on the fixed substrings `/.archived/` and
`\.archived\` rather than on the configured archive root, and
`doRenameSkill` checks `loadSkillContent(newName)` with no archive-aware
guard at all.
-/

/-- Environment whose archive root is configured to `/s/trash` (not the
default `.archived` name) and whose scan finds a resource living under
that root. -/
def listEnvCustomArchive : ManagerEnv :=
  ⟨str "/s", str "/s/trash", fun _ => none,
    [⟨str "demo", str "d", str "/s/trash/demo_x/SKILL.md",
      str "/s/trash/demo_x"⟩],
    [], fun _ => false, fun _ => none⟩

/-- Counterexample to C6: with the archive root configured to
`/s/trash`, a resource whose `baseDir` lies inside that archive root is
still returned by `listSkills` — the exclusion tests the fixed
`.archived` substrings, not the configured root. -/
theorem listSkills_custom_archive_cex :
    ((listEnvCustomArchive.archivedDir ++ ['/']).isPrefixOf
      (str "/s/trash/demo_x")) = true ∧
    listSkills listEnvCustomArchive =
      [⟨⟨str "demo", str "d", str "/s/trash/demo_x/SKILL.md",
        str "/s/trash/demo_x"⟩, none, none⟩] := by
  decide

/-- C6 as amended: `listSkills` returns exactly the scanned resources
whose `baseDir` contains neither `/.archived/` nor `\.archived\` — so a
resource under the default archive root `<skillsDir>/.archived` is
always excluded, but one under a differently named configured archive
root is not — and every returned entry carries `createdAt`/`updatedAt`
freshly computed from the filesystem stat of its manifest path. -/
theorem listSkills_exclusion_amended (env : ManagerEnv) :
    (∀ (sk : SkillMeta) (rest : Str),
      env.archivedDir = env.skillsDir ++ str "/.archived" →
      sk.baseDir = env.archivedDir ++ '/' :: rest →
      ∀ o ∈ listSkills env, o.meta ≠ sk) ∧
    (∀ o ∈ listSkills env, o.meta ∈ env.allSkills ∧
      isArchivedPath o.meta.baseDir = false ∧
      o.createdAt = (env.stat o.meta.path).map StatInfo.birthtime ∧
      o.updatedAt = (env.stat o.meta.path).map StatInfo.mtime) ∧
    (∀ sk ∈ env.allSkills, isArchivedPath sk.baseDir = false →
      enrichStat env sk ∈ listSkills env) := by
  refine ⟨?_, ?_, ?_⟩
  · intro sk rest harch hbase o ho heq
    have hap : isArchivedPath sk.baseDir = true :=
      isArchivedPath_under_default env.skillsDir rest sk.baseDir
        (by rw [hbase, harch])
    obtain ⟨sk', hmem, hsk'⟩ := List.mem_map.mp ho
    have hfil := List.mem_filter.mp hmem
    have : o.meta = sk' := by rw [← hsk']; rfl
    rw [heq] at this
    rw [← this] at hfil
    rw [hap] at hfil
    simpa using hfil.2
  · intro o ho
    obtain ⟨sk', hmem, hsk'⟩ := List.mem_map.mp ho
    have hfil := List.mem_filter.mp hmem
    have hmeta : o.meta = sk' := by rw [← hsk']; rfl
    refine ⟨by rw [hmeta]; exact hfil.1, ?_, ?_, ?_⟩
    · rw [hmeta]
      have := hfil.2
      cases hx : isArchivedPath sk'.baseDir
      · rfl
      · rw [hx] at this
        simp at this
    · rw [← hsk']
      rfl
    · rw [← hsk']
      rfl
  · intro sk hmem hap
    apply List.mem_map.mpr
    refine ⟨sk, ?_, rfl⟩
    apply List.mem_filter.mpr
    exact ⟨hmem, by simp [hap]⟩

/-- Witness for the amended C6 at a default-layout environment with one
online and one archived resource. -/
def listEnvDefault : ManagerEnv :=
  ⟨str "/s", str "/s/.archived", fun _ => none,
    [⟨str "demo", str "d", str "/s/demo/SKILL.md", str "/s/demo"⟩,
      ⟨str "old", str "o",
        str "/s/.archived/old_2026-01-15T05-05-01-350Z/SKILL.md",
        str "/s/.archived/old_2026-01-15T05-05-01-350Z"⟩],
    [], fun _ => false,
    fun p => if p == str "/s/demo/SKILL.md" then
        some ⟨str "2026-01-01T00:00:00.000Z", str "2026-01-02T00:00:00.000Z"⟩
      else none⟩

/-- Witness for the amended C6: the archived resource is excluded and the
online one is returned with its stat times. -/
theorem listSkills_exclusion_amended_witness :
    (∀ o ∈ listSkills listEnvDefault,
      o.meta ≠ ⟨str "old", str "o",
        str "/s/.archived/old_2026-01-15T05-05-01-350Z/SKILL.md",
        str "/s/.archived/old_2026-01-15T05-05-01-350Z"⟩) ∧
    enrichStat listEnvDefault
        ⟨str "demo", str "d", str "/s/demo/SKILL.md", str "/s/demo"⟩ ∈
      listSkills listEnvDefault :=
  ⟨(listSkills_exclusion_amended listEnvDefault).1
      ⟨str "old", str "o",
        str "/s/.archived/old_2026-01-15T05-05-01-350Z/SKILL.md",
        str "/s/.archived/old_2026-01-15T05-05-01-350Z"⟩
      (str "old_2026-01-15T05-05-01-350Z") rfl (by decide),
    (listSkills_exclusion_amended listEnvDefault).2.2
      ⟨str "demo", str "d", str "/s/demo/SKILL.md", str "/s/demo"⟩
      (by decide) (by decide)⟩

/-- Environment where `alpha` is online and the name `beta` is held only
by an archived entry (which the loader's recursive scan still
resolves, as the source's own comments in `doCreateSkill` note). -/
def renameEnvArchivedTarget : ManagerEnv :=
  ⟨str "/s", str "/s/.archived",
    fun n =>
      if n == str "alpha" then
        some ⟨str "alpha", str "a", str "/s/alpha/SKILL.md", str "/s/alpha"⟩
      else if n == str "beta" then
        some ⟨str "beta", str "b",
          str "/s/.archived/beta_2026-01-15T05-05-01-350Z/SKILL.md",
          str "/s/.archived/beta_2026-01-15T05-05-01-350Z"⟩
      else none,
    [],
    [⟨str "beta", str "beta_2026-01-15T05-05-01-350Z",
      str "/s/.archived/beta_2026-01-15T05-05-01-350Z",
      str "2026-01-15T05:05:01.350Z"⟩],
    fun _ => false, fun _ => none⟩

/-- Counterexample to C7: renaming `alpha` to `beta`, where `beta`
collides only with an archived entry (the loader resolves `beta` to a
resource under the archive root and no online `beta` exists), does not
succeed — it fails with the plain "already exists" conflict. -/
theorem renameSkill_archived_collision_cex :
    renameEnvArchivedTarget.load (str "beta") =
      some ⟨str "beta", str "b",
        str "/s/.archived/beta_2026-01-15T05-05-01-350Z/SKILL.md",
        str "/s/.archived/beta_2026-01-15T05-05-01-350Z"⟩ ∧
    isArchivedPath
      (str "/s/.archived/beta_2026-01-15T05-05-01-350Z") = true ∧
    doRenameSkill renameEnvArchivedTarget (str "alpha") (str "beta") =
      .error (str "Skill already exists: " ++ str "beta") :=
  ⟨rfl, by decide, rfl⟩

/-- C7 as amended: `renameSkill` never consults the archive listing (its
result is invariant under any change of the archived-entries view), and,
given that the old name resolves and the new name validates, it fails
with the plain "already exists" conflict exactly when
`loadSkillContent(newName)` resolves to anything — including a resource
under the archive root, so a rename colliding only with an archived
entry fails rather than succeeds. -/
theorem renameSkill_conflict_amended (env : ManagerEnv)
    (oldName newName : Str) (a : List ArchivedSkillInfo) (m0 : SkillMeta)
    (hold : env.load oldName = some m0)
    (hvalid : isValidSkillName newName = true) :
    doRenameSkill { env with archivedSkills := a } oldName newName =
      doRenameSkill env oldName newName ∧
    ((env.load newName).isSome = true ↔
      doRenameSkill env oldName newName =
        .error (str "Skill already exists: " ++ newName)) := by
  refine ⟨rfl, ?_⟩
  constructor
  · intro h
    cases hl : env.load newName with
    | none => rw [hl] at h; simp at h
    | some m => simp [doRenameSkill, hold, hvalid, hl]
  · intro h
    cases hl : env.load newName with
    | none =>
        rw [doRenameSkill] at h
        rw [hold] at h
        simp [hvalid, hl] at h
    | some m => simp

/-- Witness for the amended C7 at the archived-collision environment. -/
theorem renameSkill_conflict_amended_witness :
    doRenameSkill
        { renameEnvArchivedTarget with archivedSkills := [] }
        (str "alpha") (str "beta") =
      doRenameSkill renameEnvArchivedTarget (str "alpha") (str "beta") ∧
    ((renameEnvArchivedTarget.load (str "beta")).isSome = true ↔
      doRenameSkill renameEnvArchivedTarget (str "alpha") (str "beta") =
        .error (str "Skill already exists: " ++ str "beta")) :=
  renameSkill_conflict_amended renameEnvArchivedTarget (str "alpha")
    (str "beta") []
    ⟨str "alpha", str "a", str "/s/alpha/SKILL.md", str "/s/alpha"⟩
    (by decide) (by decide)
